import Mathlib

/-!
Shallow embedding of the SheetApps template repository's API layer
(`src/api/client.ts` — class `SheetClient`, `src/api/sheetApi.ts` — class
`SheetApi`, `src/api/apiManager.ts` — class `ApiManager`) and proofs about it.

JavaScript values that flow through the data-shaping layer are modelled by
the inductive type `Value` (strings, booleans, numbers, `null`, `undefined`);
JavaScript objects holding sheet rows are modelled as association lists from
string keys to `Value`, with assignment `obj[k] = v` modelled by `setKey`
(replace the existing binding in place, or append).  Machine integers and
timestamps are modelled as `Nat` (all quantities involved are non-negative
millisecond counts or list indices).  Fallible operations return `Except` /
`Option`, and network calls are parameters of the embedding (the repository
is a browser client of an external REST API).
-/

/-- A JavaScript runtime value as observed by the data-shaping layer:
a string, a boolean, a number (row indices; modelled as `Int`),
`null`, or `undefined`.  Structural equality on `Value` coincides with
JavaScript strict equality `===` on these shapes (values of different
shapes are never `===`-equal, and `null`, `undefined` are distinct). -/
inductive Value where
  | str (s : String)
  | bool (b : Bool)
  | num (n : Int)
  | null
  | undef
deriving DecidableEq, Repr

deriving instance DecidableEq for Except

/-- A sheet-row record: a JavaScript object modelled as an association list
from property names to values (insertion order preserved, one binding per
key when built with `setKey`). -/
abbrev Row := List (String × Value)

/-- Property read `obj[k]`: the value of the first binding of `k`,
`none` when the property is absent (JavaScript `undefined`). -/
def lookupKey {β : Type} : List (String × β) → String → Option β
  | [], _ => none
  | (k', v) :: rest, k => if k' = k then some v else lookupKey rest k

/-- Property write `obj[k] = v`: replace the first binding of `k` in place,
or append a new binding when `k` is absent. -/
def setKey {β : Type} : List (String × β) → String → β → List (String × β)
  | [], k, v => [(k, v)]
  | (k', v') :: rest, k, v =>
      if k' = k then (k, v) :: rest else (k', v') :: setKey rest k v

/-- `Map.delete k`: remove the binding(s) of `k`. -/
def delKey {β : Type} (m : List (String × β)) (k : String) : List (String × β) :=
  m.filter (fun p => decide (p.1 ≠ k))

@[simp] theorem lookupKey_setKey_self {β : Type} (m : List (String × β)) (k : String) (v : β) :
    lookupKey (setKey m k v) k = some v := by
  induction m with
  | nil => simp [setKey, lookupKey]
  | cons p rest ih =>
      obtain ⟨k', v'⟩ := p
      by_cases h : k' = k <;> simp [setKey, lookupKey, h, ih]

theorem lookupKey_setKey_ne {β : Type} (m : List (String × β)) (k k' : String) (v : β)
    (h : k ≠ k') : lookupKey (setKey m k' v) k = lookupKey m k := by
  have h' : ¬ k' = k := fun e => h e.symm
  induction m with
  | nil => simp [setKey, lookupKey, h']
  | cons p rest ih =>
      obtain ⟨k₀, v₀⟩ := p
      by_cases hk : k₀ = k'
      · subst hk
        simp [setKey, lookupKey, h']
      · by_cases hk2 : k₀ = k <;> simp [setKey, lookupKey, hk, hk2, h, ih]

theorem lookupKey_delKey_ne {β : Type} (m : List (String × β)) (k k' : String)
    (h : k ≠ k') : lookupKey (delKey m k') k = lookupKey m k := by
  have h' : ¬ k' = k := fun e => h e.symm
  induction m with
  | nil => simp [delKey, lookupKey]
  | cons p rest ih =>
      obtain ⟨k₀, v₀⟩ := p
      by_cases hk : k₀ = k'
      · subst hk
        simpa [delKey, List.filter_cons, lookupKey, h'] using ih
      · by_cases hk2 : k₀ = k <;>
          simp_all [delKey, List.filter_cons, lookupKey, hk, hk2]

@[simp] theorem lookupKey_delKey_self {β : Type} (m : List (String × β)) (k : String) :
    lookupKey (delKey m k) k = none := by
  induction m with
  | nil => simp [delKey, lookupKey]
  | cons p rest ih =>
      obtain ⟨k₀, v₀⟩ := p
      by_cases hk : k₀ = k <;>
        simp_all [delKey, List.filter_cons, lookupKey, hk]

theorem mem_setKey {β : Type} {m : List (String × β)} {k : String} {v : β} {p : String × β}
    (h : p ∈ setKey m k v) : p ∈ m ∨ p = (k, v) := by
  induction m with
  | nil => simpa [setKey] using h
  | cons q rest ih =>
      obtain ⟨k₀, v₀⟩ := q
      by_cases hk : k₀ = k
      · simp only [setKey, if_pos hk, List.mem_cons] at h
        rcases h with h | h
        · right; exact h
        · left; exact List.mem_cons_of_mem _ h
      · simp only [setKey, if_neg hk, List.mem_cons] at h
        rcases h with h | h
        · left; simp [h]
        · rcases ih h with h' | h'
          · left; exact List.mem_cons_of_mem _ h'
          · right; exact h'

theorem mem_delKey {β : Type} {m : List (String × β)} {k : String} {p : String × β}
    (h : p ∈ delKey m k) : p ∈ m := List.mem_of_mem_filter h

theorem lookupKey_mem {β : Type} {m : List (String × β)} {k : String} {v : β}
    (h : lookupKey m k = some v) : (k, v) ∈ m := by
  induction m with
  | nil => simp [lookupKey] at h
  | cons q rest ih =>
      obtain ⟨k₀, v₀⟩ := q
      by_cases hk : k₀ = k
      · subst hk
        simp [lookupKey] at h
        simp [h]
      · simp only [lookupKey, if_neg hk] at h
        exact List.mem_cons_of_mem _ (ih h)

/-- If the first binding of `k` survives the filter, lookup in the filtered
list still yields it. -/
theorem lookupKey_filter_of_keep {β : Type} {m : List (String × β)} {k : String} {v : β}
    (q : String × β → Bool)
    (h : lookupKey m k = some v) (hq : q (k, v) = true) :
    lookupKey (m.filter q) k = some v := by
  induction m with
  | nil => simp [lookupKey] at h
  | cons p rest ih =>
      obtain ⟨k₀, v₀⟩ := p
      by_cases hk : k₀ = k
      · subst hk
        simp only [lookupKey, if_pos rfl] at h
        cases h
        simp [List.filter_cons, hq, lookupKey]
      · simp only [lookupKey, if_neg hk] at h
        cases hqp : q (k₀, v₀) <;> simp [List.filter_cons, hqp, lookupKey, hk, ih h]

/-! ## JavaScript string primitives

`String.prototype.trim` and `String.prototype.toLowerCase` are embedded as
explicit character-list functions (ASCII case mapping; whitespace is the
ASCII whitespace set, which covers every value occurring in this program). -/

/-- A whitespace character as removed by `String.prototype.trim`
(ASCII subset: space, tab, line feed, carriage return, vertical tab,
form feed). -/
def isJsSpace (c : Char) : Bool :=
  c = ' ' || c = '\t' || c = '\n' || c = '\r' || c = Char.ofNat 11 || c = Char.ofNat 12

/-- Drop leading whitespace. -/
def dropLeadSpace : List Char → List Char
  | [] => []
  | c :: rest => if isJsSpace c then dropLeadSpace rest else c :: rest

/-- `value.trim()`. -/
def jsTrim (s : String) : String :=
  String.mk ((dropLeadSpace (dropLeadSpace s.data).reverse).reverse)

/-- ASCII lower-casing of one character. -/
def lowerChar (c : Char) : Char :=
  if 'A' ≤ c ∧ c ≤ 'Z' then Char.ofNat (c.toNat + 32) else c

/-- `value.toLowerCase()` (ASCII case mapping). -/
def jsToLower (s : String) : String := String.mk (s.data.map lowerChar)

example : jsTrim "  a b\t" = "a b" := by decide
example : jsToLower "TrUe" = "true" := by decide

/-! ## `SheetClient.smartTypeConversion` (src/api/client.ts)

The heuristic type conversion applied to every cell while shaping raw sheet
data into row records. -/

/-- `s.includes(pat)` on JavaScript strings: substring containment. -/
def hasSubList : List Char → List Char → Bool
  | pat, [] => pat.isEmpty
  | pat, c :: rest => pat.isPrefixOf (c :: rest) || hasSubList pat rest

/-- `columnName.includes(name)`. -/
def hasSub (s pat : String) : Bool := hasSubList pat.data s.data

/-- The column names treated as boolean columns
(`SheetClient.isBooleanColumn`). -/
def booleanColumnNames : List String := ["done", "completed", "finished", "active", "visited"]

/-- The cell values treated as boolean-valued (`SheetClient.isBooleanColumn`). -/
def booleanValues : List String :=
  ["true", "false", "yes", "no", "y", "n", "1", "0", "done", "completed"]

/-- The values converted to `true` (`SheetClient.convertToBoolean`). -/
def truthyValues : List String :=
  ["true", "yes", "y", "1", "done", "completed", "active", "visited"]

/-- `SheetClient.isBooleanColumn(columnName, value)` — both arguments already
lower-cased by the caller. -/
def isBooleanColumn (columnName value : String) : Bool :=
  booleanColumnNames.any (fun name => hasSub columnName name) ||
  booleanValues.contains value

/-- `SheetClient.convertToBoolean(value)`. -/
def convertToBool (value : String) : Bool := truthyValues.contains value

/-- `SheetClient.smartTypeConversion(value, columnName)`.  The only falsy
JavaScript string is `""`, so `!value || value.trim() === ''` is equivalent
to `jsTrim value = ""`. -/
def smartTypeConversion (value : String) (columnName : String) : Value :=
  if value = "" ∨ jsTrim value = "" then Value.str ""
  else
    let trimmedValue := jsTrim value
    let lowerColumnName := jsToLower columnName
    let lowerValue := jsToLower trimmedValue
    if isBooleanColumn lowerColumnName lowerValue then
      Value.bool (convertToBool lowerValue)
    else
      Value.str trimmedValue

example : smartTypeConversion "  " "Name" = Value.str "" := by decide
example : smartTypeConversion "Yes" "Name" = Value.bool true := by decide
example : smartTypeConversion "maybe" "Task Done" = Value.bool false := by decide
example : smartTypeConversion "Alice" "Name" = Value.str "Alice" := by decide
example : smartTypeConversion " Alice " "Name" = Value.str "Alice" := by decide

/-! ## `SheetClient.numberToColumnLetter` and A1 notation (src/api/client.ts)

The source loop

```
let result = '';
while (num >= 0) {
  result = String.fromCharCode(65 + (num % 26)) + result;
  num = Math.floor(num / 26) - 1;
}
```

runs at least once for `num ≥ 0` and continues while `floor(num/26) - 1 ≥ 0`,
i.e. while `num ≥ 26`; each iteration prepends one character.  It is embedded
as a recursion producing the same string. -/

/-- `SheetClient.numberToColumnLetter(num)` for `num ≥ 0` (the only inputs
the program produces: 0-based column indices). -/
def numberToColumnLetter (num : Nat) : String :=
  if num < 26 then String.mk [Char.ofNat (65 + num % 26)]
  else numberToColumnLetter (num / 26 - 1) ++ String.mk [Char.ofNat (65 + num % 26)]
termination_by num
decreasing_by
  have := Nat.div_le_self num 26
  omega

/-- `SheetClient.getA1Notation(row, col)`, embedded as `toA1`: column
letters followed by the decimal row number. -/
def toA1 (row : Nat) (col : Nat) : String :=
  numberToColumnLetter col ++ toString row

example : toA1 1 0 = "A1" := by
  rw [toA1, numberToColumnLetter]; norm_num; decide
example : toA1 2 25 = "Z2" := by
  rw [toA1, numberToColumnLetter]; norm_num; decide
example : toA1 10 26 = "AA10" := by
  rw [toA1, numberToColumnLetter]; norm_num
  rw [numberToColumnLetter]; norm_num; decide
example : toA1 3 702 = "AAA3" := by
  rw [toA1, numberToColumnLetter]; norm_num
  rw [numberToColumnLetter]; norm_num
  rw [numberToColumnLetter]; norm_num; decide

/-- Modelled from the spec's words for the refinement claim about A1
notation: the bijective base-26 numeral of `n ≥ 1` over the digits
`A = 1, …, Z = 26` (`bijBase26 0 = ""`). -/
def bijBase26 : Nat → String
  | 0 => ""
  | n + 1 => bijBase26 (n / 26) ++ String.mk [Char.ofNat (65 + n % 26)]
decreasing_by
  have := Nat.div_le_self n 26
  omega

example : bijBase26 1 = "A" := by
  rw [bijBase26]; norm_num; rw [bijBase26]; decide
example : bijBase26 27 = "AA" := by
  rw [bijBase26]; norm_num
  rw [bijBase26]; norm_num
  rw [bijBase26]; decide

theorem numberToColumnLetter_eq_bijBase26 (col : Nat) :
    numberToColumnLetter col = bijBase26 (col + 1) := by
  induction col using Nat.strong_induction_on with
  | _ col ih =>
    by_cases h : col < 26
    · have hdiv : col / 26 = 0 := Nat.div_eq_of_lt h
      rw [numberToColumnLetter, if_pos h]
      show _ = bijBase26 (col + 1)
      rw [bijBase26, hdiv]
      rw [bijBase26]
      rfl
    · push_neg at h
      have hdivpos : 1 ≤ col / 26 := (Nat.le_div_iff_mul_le (by omega)).2 (by omega)
      have hlt : col / 26 - 1 < col := by
        have := Nat.div_le_self col 26
        omega
      rw [numberToColumnLetter, if_neg (by omega)]
      rw [ih (col / 26 - 1) hlt]
      have : col / 26 - 1 + 1 = col / 26 := by omega
      rw [this]
      show _ = bijBase26 (col + 1)
      rw [bijBase26]

/-! ## `SheetClient.transformRawDataToRows` (src/api/client.ts) -/

/-- The `effectiveHeaders.forEach((header, colIndex) => …)` loop of
`transformRawDataToRows`: assign the converted cell to `rowObject[header]`
for each header, tracking the column index. -/
def applyHeaders (row : List String) : Nat → List String → Row → Row
  | _, [], acc => acc
  | colIndex, header :: rest, acc =>
      let cellValue := if colIndex < row.length then row.getD colIndex "" else ""
      applyHeaders row (colIndex + 1) rest
        (setKey acc header (smartTypeConversion cellValue header))

/-- One record of `transformRawDataToRows`: the object literal
`{ _id: row[0] || `row_${index+1}`, _rowIndex: index + 1 }` followed by the
per-header assignments.  (`row[0]` is falsy exactly when it is missing or
the empty string.) -/
def mkRowObject (effectiveHeaders : List String) (index : Nat) (row : List String) : Row :=
  applyHeaders row 0 effectiveHeaders
    [("_id", Value.str (if row.headD "" ≠ "" then row.headD ""
                        else "row_" ++ toString (index + 1))),
     ("_rowIndex", Value.num (Int.ofNat (index + 1)))]

/-- The `dataRows.map((row, index) => …)` loop. -/
def buildRows (effectiveHeaders : List String) : Nat → List (List String) → List Row
  | _, [] => []
  | index, row :: rest =>
      mkRowObject effectiveHeaders index row :: buildRows effectiveHeaders (index + 1) rest

/-- `SheetClient.transformRawDataToRows(rawData)`, parameterised by
`this.config.headers`. -/
def transformRawDataToRows (configHeaders : List String)
    (rawData : List (List String)) : List Row :=
  match rawData with
  | [] => []
  | sheetHeaders :: dataRows =>
      let effectiveHeaders :=
        if configHeaders.length > 0 then configHeaders else sheetHeaders
      buildRows effectiveHeaders 0 dataRows

example :
    transformRawDataToRows [] [["Name", "Done"], ["Alice", "yes"], ["", "no"]] =
      [[("_id", Value.str "Alice"), ("_rowIndex", Value.num 1),
        ("Name", Value.str "Alice"), ("Done", Value.bool true)],
       [("_id", Value.str "row_2"), ("_rowIndex", Value.num 2),
        ("Name", Value.str ""), ("Done", Value.bool false)]] := by decide

/-! ## `SheetClient.getRowById` / `findRowByIdentifier` (src/api/client.ts) -/

/-- The predicate of `getRowById`'s `allData.find(…)`:
`row._id === identifier || row[this.config.headers[0]] === identifier`.
With no configured headers, `headers[0]` is `undefined`, and JavaScript
property access coerces the key to a string, so `row[undefined]` reads the
property literally named `"undefined"`. -/
def rowMatchesId (headers : List String) (id : Value) (row : Row) : Bool :=
  decide (lookupKey row "_id" = some id) ||
  (match headers with
   | [] => decide (lookupKey row "undefined" = some id)
   | h :: _ => decide (lookupKey row h = some id))

/-- `SheetClient.getRowById(identifier)`, applied to the rows returned by
`getAllData` (`row || null` makes no difference in the model: a found row is
a genuine row object). -/
def getRowById (headers : List String) (allData : List Row) (id : Value) : Option Row :=
  allData.find? (rowMatchesId headers id)

/-- The predicate of `findRowByIdentifier`'s `findIndex`: id match, primary
key (first configured header) match, or any property value match. -/
def rowMatchesIdent (headers : List String) (id : Value) (row : Row) : Bool :=
  decide (lookupKey row "_id" = some id) ||
  (match headers with
   | [] => false
   | h :: _ => decide (lookupKey row h = some id)) ||
  row.any (fun kv => decide (kv.2 = id))

/-- `SheetClient.findRowByIdentifier(identifier)` applied to the rows
returned by `getAllData`; `Array.findIndex` yields `-1` when no row
matches. -/
def findRowByIdentifier (headers : List String) (rows : List Row) (id : Value) : Int :=
  match rows.findIdx? (rowMatchesIdent headers id) with
  | some i => Int.ofNat i
  | none => -1

/-- `this.config.headers.indexOf(field)` (`-1` when absent). -/
def indexOfHeader (headers : List String) (field : String) : Int :=
  match headers.findIdx? (fun h => decide (h = field)) with
  | some i => Int.ofNat i
  | none => -1

/-- `SheetClient.getCellValue(rowIndex, columnIndex)` applied to already
fetched rows: `null` on an out-of-range index, otherwise the property value
of the selected header (absent property = `undefined`). -/
def getCellValueFrom (headers : List String) (rows : List Row)
    (rowIndex columnIndex : Nat) : Value :=
  if rowIndex ≥ rows.length ∨ columnIndex ≥ headers.length then Value.null
  else
    match rows.get? rowIndex, headers.get? columnIndex with
    | some row, some header => (lookupKey row header).getD Value.undef
    | _, _ => Value.undef

/-! ## `SheetClient.getAllData` with its single-key cache (src/api/client.ts)

The client cache is a `Map` in which only the key `'all_data'` is ever
written, so the cache state is modelled as `Option (List Row × Nat)`
(rows and storage timestamp); `invalidateCache` clears it to `none`.
The network call `makeRequest('GET', …)` is a parameter:
`Except.error e`      — the request threw (message already wrapped),
`Except.ok none`      — a response without `data.values`,
`Except.ok (some vs)` — a response carrying the raw value grid `vs`. -/

/-- The error message thrown by `getAllData` when the response has no
values. -/
def noDataThrowMsg : String :=
  "No data found in the specified sheet. Please check your sheet ID and ensure the sheet contains data."

/-- The fetch-and-transform path of `SheetClient.getAllData` (cache miss). -/
def clientFetchFresh (now : Nat) (configHeaders : List String)
    (fetch : Except String (Option (List (List String))))
    (st : Option (List Row × Nat)) :
    Except String (List Row) × Option (List Row × Nat) :=
  match fetch with
  | .error e => (.error e, st)
  | .ok none => (.error noDataThrowMsg, st)
  | .ok (some vals) =>
      if vals.length = 0 then (.error noDataThrowMsg, st)
      else
        let rows := transformRawDataToRows configHeaders vals
        (.ok rows, some (rows, now))

/-- `SheetClient.getAllData()`: serve from cache when the entry is younger
than `CACHE_TTL = 30000` ms, otherwise fetch, transform and cache.
A thrown error is an `Except.error` result. -/
def clientGetAllData (now : Nat) (configHeaders : List String)
    (fetch : Except String (Option (List (List String))))
    (st : Option (List Row × Nat)) :
    Except String (List Row) × Option (List Row × Nat) :=
  match st with
  | some (rows, t) =>
      if now - t < 30000 then (.ok rows, st)
      else clientFetchFresh now configHeaders fetch st
  | none => clientFetchFresh now configHeaders fetch st

/-! ## `SheetClient.updateField` (src/api/client.ts) -/

/-- An update operation (`UpdateOperation` in src/types): `oldValue = none`
models omitting the optional field (`undefined`). -/
structure UpdateOp where
  identifier : Value
  field : String
  newValue : Value
  oldValue : Option Value
deriving DecidableEq, Repr

/-- JavaScript template-literal coercion `${v}` for the error messages of
`updateField`. -/
def jsValToString : Value → String
  | .str s => s
  | .bool b => if b then "true" else "false"
  | .num n => toString n
  | .null => "null"
  | .undef => "undefined"

/-- The fields of an `ApiResponse` that `updateField`'s control flow and the
claims inspect (the opaque `data` payload of a write response is elided). -/
structure ApiResp where
  success : Bool
  error : Option String := none
deriving DecidableEq, Repr

/-- The tail of `updateField` once both indices are validated: build the A1
range, format the new value, `POST` the update (outcome supplied by the
environment: `Except.error` = `makeRequest` threw) and, only when the
request returned, invalidate the cache.  The third component records
whether a write request was issued. -/
def performWrite (fmt : Value → String → String) (dataTypes : String → String)
    (writeOutcome : Except String ApiResp) (rowIndex columnIndex : Int)
    (params : UpdateOp) (st' : Option (List Row × Nat)) :
    ApiResp × Option (List Row × Nat) × Bool :=
  let _range := toA1 (rowIndex.toNat + 1) columnIndex.toNat
  let _formatted := fmt params.newValue (dataTypes params.field)
  match writeOutcome with
  | .error e => ({ success := false, error := some e }, st', true)
  | .ok resp => (resp, none, true)

/-- `SheetClient.updateField(params)`.  `fmt` embeds `this.formatValue` and
`dataTypes` embeds `this.config.dataTypes` (neither affects any claim: the
formatted payload is opaque to the control flow).  Returns the response,
the final cache state, and whether a write request was issued. -/
def updateField (cfg : List String) (fmt : Value → String → String)
    (dataTypes : String → String) (now : Nat)
    (fetch : Except String (Option (List (List String))))
    (writeOutcome : Except String ApiResp)
    (st : Option (List Row × Nat)) (params : UpdateOp) :
    ApiResp × Option (List Row × Nat) × Bool :=
  match clientGetAllData now cfg fetch st with
  | (.error e, st1) => ({ success := false, error := some e }, st1, false)
  | (.ok rows, st1) =>
      let rowIndex := findRowByIdentifier cfg rows params.identifier
      let columnIndex := indexOfHeader cfg params.field
      if rowIndex = -1 then
        ({ success := false,
           error := some ("Row with identifier " ++ jsValToString params.identifier
                          ++ " not found") }, st1, false)
      else if columnIndex = -1 then
        ({ success := false,
           error := some ("Field " ++ params.field ++ " not found in headers") },
         st1, false)
      else
        match params.oldValue with
        | some ov =>
            match clientGetAllData now cfg fetch st1 with
            | (.error e, st2) => ({ success := false, error := some e }, st2, false)
            | (.ok rows2, st2) =>
                let current := getCellValueFrom cfg rows2 rowIndex.toNat columnIndex.toNat
                if current ≠ ov then
                  ({ success := false,
                     error := some "Optimistic lock failed: value was changed by another user" },
                   st2, false)
                else performWrite fmt dataTypes writeOutcome rowIndex columnIndex params st2
        | none => performWrite fmt dataTypes writeOutcome rowIndex columnIndex params st1

/-! ## `SheetApi` (src/api/sheetApi.ts) -/

/-- An `ApiResponse<T>` as produced by `SheetApi` (src/types): optional
fields are `Option`s defaulting to absent. -/
structure Resp (α : Type) where
  success : Bool
  data : Option α := none
  error : Option String := none
  message : Option String := none
  timestamp : Option String := none
deriving DecidableEq, Repr

/-- `SheetApi.getAllData()`, as a function of the outcome of
`this.client.getAllData()` (an `Except.error` is a rejected client promise
caught by the `try/catch`) and of the current ISO timestamp.  The function
is total: every outcome yields a response, so the wrapper never rejects. -/
def sheetApiGetAllData (outcome : Except String (List Row)) (ts : String) :
    Resp (List Row) :=
  match outcome with
  | .error msg =>
      { success := false,
        error := some ("Google Sheets API Error: " ++ msg),
        timestamp := some ts }
  | .ok rows =>
      if rows.length = 0 then
        { success := false,
          error := some "No data found in the sheet. Please ensure your Google Sheet contains data and check your configuration.",
          timestamp := some ts }
      else
        { success := true,
          data := some rows,
          message := some ("Successfully retrieved " ++ toString rows.length
                           ++ " rows from Google Sheets"),
          timestamp := some ts }

/-- `SheetApi.getRow(identifier)`, as a function of the outcome of the
client's `getAllData` (which `getRowById` awaits) and the current ISO
timestamp. -/
def sheetApiGetRow (headers : List String) (outcome : Except String (List Row))
    (id : Value) (ts : String) : Resp (Option Row) :=
  match outcome with
  | .error e => { success := false, error := some e, timestamp := some ts }
  | .ok rows =>
      let row := getRowById headers rows id
      { success := true,
        data := some row,
        message := some (match row with
                         | some _ => "Row found"
                         | none => "Row not found"),
        timestamp := some ts }

/-! ## `ApiManager` (src/api/apiManager.ts)

`ApiManager` wraps `sheetApi` with a TTL cache (`Map<string, CachedResponse>`),
per-endpoint promise deduplication (`Map<string, PendingRequest>`) and rate
limiting.  Its behaviour is modelled as a small-step machine over explicit
states: each public call is a task that advances through the suspension
points of the async code (the JavaScript event loop runs the synchronous
section between two `await`s atomically).  The crucial suspension point is
`await this.enforceRateLimit()`: an `await` always yields to the event loop
— even when `enforceRateLimit` waits for no timer — so the pending-request
check and the registration of the new request in `makeNewRequest` /
`makeQuickTestRequest` never run in one atomic section.

The underlying calls (`sheetApi.getAllData()` in `makeNewRequest`,
`performQuickTest()` in `makeQuickTestRequest`) are async functions whose
bodies catch every error, so their promises settle but never reject
(`sheetApiGetAllData` above is total); the machine therefore has no
rejection transitions and the `catch` re-registration paths of the source
are unreachable.  Rate limiting only delays a task, which the machine
expresses by letting time advance arbitrarily between steps;
`lastRequestTime` is updated when the task resumes from the rate-limit
suspension. -/

/-- A value stored in the manager cache: a `getAllData` response or a
quick-connection-test result. -/
structure QuickResult where
  connected : Bool
  error : Option String := none
  rowCount : Option Nat := none
deriving DecidableEq, Repr

inductive CacheVal where
  | allData (r : Resp (List Row))
  | quick (q : QuickResult)
deriving DecidableEq, Repr

/-- `CachedResponse` (src/api/apiManager.ts). -/
structure CachedResponse where
  data : CacheVal
  timestamp : Nat
  ttl : Nat
deriving DecidableEq, Repr

/-- A `PendingRequest` entry: the promise is identified by the index of the
underlying request it belongs to. -/
structure PendingEntry where
  reqId : Nat
  timestamp : Nat
deriving DecidableEq, Repr

/-- The endpoint of a public `ApiManager` call. -/
inductive OpKind where
  | data
  | quick
deriving DecidableEq, Repr

/-- The cache/pending key of an endpoint (`'getAllData'` / `'quickTest'`). -/
def keyFor : OpKind → String
  | .data => "getAllData"
  | .quick => "quickTest"

/-- The `customTtl` the endpoint passes to `getCachedResponse`
(`quickConnectionTest` passes `10000`, `getAllData` passes nothing). -/
def customFor : OpKind → Option Nat
  | .data => none
  | .quick => some 10000

/-- An underlying in-flight request (one `sheetApi.getAllData()` or
`performQuickTest()` invocation); `result = none` while the promise is
unsettled. -/
structure Request where
  op : OpKind
  result : Option CacheVal := none
deriving DecidableEq, Repr

/-- The continuation point of a public call between suspension points. -/
inductive TaskPC where
  | ready
  | rateWait
  | awaitOwn (rid : Nat)
  | awaitShared (rid : Nat)
  | finished (v : CacheVal)
deriving DecidableEq, Repr

structure CallTask where
  op : OpKind
  pc : TaskPC
deriving DecidableEq, Repr

/-- The `ApiManager` instance state plus the in-flight requests and the
running public calls. -/
structure MState where
  now : Nat
  cache : List (String × CachedResponse)
  pending : List (String × PendingEntry)
  lastRequestTime : Nat
  requests : List Request
  tasks : List CallTask
deriving DecidableEq, Repr

/-- JavaScript `customTtl || cached.ttl`: `0` and `undefined` are falsy. -/
def jsOr : Option Nat → Nat → Nat
  | none, d => d
  | some t, d => if t = 0 then d else t

/-- `ApiManager.getCachedResponse(key, customTtl)`: returns the cached data
and the possibly updated cache (an expired entry is deleted). -/
def getCachedResponse (now : Nat) (cache : List (String × CachedResponse))
    (key : String) (customTtl : Option Nat) :
    Option CacheVal × List (String × CachedResponse) :=
  match lookupKey cache key with
  | none => (none, cache)
  | some cached =>
      let ttl := jsOr customTtl cached.ttl
      if now - cached.timestamp > ttl then (none, delKey cache key)
      else (some cached.data, cache)

/-- `ApiManager.setCacheEntry(key, data, ttl)`. -/
def setCacheEntry (now : Nat) (cache : List (String × CachedResponse))
    (key : String) (v : CacheVal) (ttl : Nat) : List (String × CachedResponse) :=
  setKey cache key { data := v, timestamp := now, ttl := ttl }

/-- The synchronous section of `getAllData` / `quickConnectionTest` from
entry to the first suspension: cache check (with its expiry side effect),
then pending check. -/
def applyEntrySection (s : MState) (i : Nat) : MState :=
  match s.tasks.get? i with
  | none => s
  | some t =>
      let key := keyFor t.op
      let res := getCachedResponse s.now s.cache key (customFor t.op)
      match res.1 with
      | some v =>
          { s with cache := res.2, tasks := s.tasks.set i { t with pc := .finished v } }
      | none =>
          match lookupKey s.pending key with
          | some p =>
              { s with cache := res.2,
                       tasks := s.tasks.set i { t with pc := .awaitShared p.reqId } }
          | none =>
              { s with cache := res.2, tasks := s.tasks.set i { t with pc := .rateWait } }

/-- The start of `makeNewRequest` / `makeQuickTestRequest` after the
rate-limit suspension: start the underlying request and register it as
pending (`this.pendingRequests.set(cacheKey, …)`). -/
def applyStartReq (s : MState) (i : Nat) : MState :=
  match s.tasks.get? i with
  | none => s
  | some t =>
      let key := keyFor t.op
      let rid := s.requests.length
      { s with requests := s.requests ++ [{ op := t.op }],
               pending := setKey s.pending key { reqId := rid, timestamp := s.now },
               lastRequestTime := s.now,
               tasks := s.tasks.set i { t with pc := .awaitOwn rid } }

/-- Settlement of an underlying request's promise with value `v`. -/
def applyResolve (s : MState) (rid : Nat) (v : CacheVal) : MState :=
  match s.requests.get? rid with
  | none => s
  | some req => { s with requests := s.requests.set rid { req with result := some v } }

/-- The continuation of `makeNewRequest` / `makeQuickTestRequest` after
`await requestPromise`: cache the result (`makeNewRequest` only caches it
when `result.success`; `makeQuickTestRequest` always caches it with a
10-second TTL), then delete the pending entry under the key. -/
def applyOwnerCont (s : MState) (i : Nat) : MState :=
  match s.tasks.get? i with
  | none => s
  | some t =>
      match t.pc with
      | .awaitOwn rid =>
          match (s.requests.get? rid).bind (fun r => r.result) with
          | none => s
          | some v =>
              let key := keyFor t.op
              let cache' :=
                match t.op, v with
                | .data, .allData r =>
                    if r.success then setCacheEntry s.now s.cache key v 30000 else s.cache
                | .data, _ => s.cache
                | .quick, _ => setCacheEntry s.now s.cache key v 10000
              { s with cache := cache',
                       pending := delKey s.pending key,
                       tasks := s.tasks.set i { t with pc := .finished v } }
      | _ => s

/-- The continuation of a call that found a pending request and awaited its
promise (`return await pending.promise`): it returns that promise's value
and touches no manager state. -/
def applyWaiterCont (s : MState) (i : Nat) : MState :=
  match s.tasks.get? i with
  | none => s
  | some t =>
      match t.pc with
      | .awaitShared rid =>
          match (s.requests.get? rid).bind (fun r => r.result) with
          | none => s
          | some v => { s with tasks := s.tasks.set i { t with pc := .finished v } }
      | _ => s

/-- `ApiManager.cleanup()`: drop expired cache entries and pending entries
older than 30 s. -/
def applyCleanup (s : MState) : MState :=
  { s with
    cache := s.cache.filter (fun kv => decide (s.now - kv.2.timestamp ≤ kv.2.ttl)),
    pending := s.pending.filter (fun kv => decide (s.now - kv.2.timestamp ≤ 30000)) }

/-- `ApiManager.clearCache()`. -/
def applyClearCache (s : MState) : MState := { s with cache := [] }

/-- `ApiManager.clearCacheEntry(key)`. -/
def applyClearEntry (s : MState) (k : String) : MState :=
  { s with cache := delKey s.cache k }

/-- A new public call arriving. -/
def applySpawn (s : MState) (op : OpKind) : MState :=
  { s with tasks := s.tasks ++ [{ op := op, pc := .ready }] }

/-- Passage of time. -/
def applyTick (s : MState) (d : Nat) : MState := { s with now := s.now + d }

/-- The observable events of the machine. -/
inductive Event where
  | spawn (op : OpKind)
  | runEntrySection (i : Nat)
  | startReq (i : Nat)
  | resolve (rid : Nat) (v : CacheVal)
  | ownerCont (i : Nat)
  | waiterCont (i : Nat)
  | doCleanup
  | doClearCache
  | doClearEntry (k : String)
  | tick (d : Nat)
deriving DecidableEq, Repr

/-- One step of the `ApiManager` machine. -/
inductive Step : MState → Event → MState → Prop where
  | spawn (s : MState) (op : OpKind) :
      Step s (.spawn op) (applySpawn s op)
  | runEntrySection (s : MState) (i : Nat) (t : CallTask)
      (hget : s.tasks.get? i = some t) (hpc : t.pc = .ready) :
      Step s (.runEntrySection i) (applyEntrySection s i)
  | startReq (s : MState) (i : Nat) (t : CallTask)
      (hget : s.tasks.get? i = some t) (hpc : t.pc = .rateWait) :
      Step s (.startReq i) (applyStartReq s i)
  | resolve (s : MState) (rid : Nat) (req : Request) (v : CacheVal)
      (hget : s.requests.get? rid = some req) (hres : req.result = none)
      (hop : (match req.op, v with
              | OpKind.data, CacheVal.allData _ => true
              | OpKind.quick, CacheVal.quick _ => true
              | _, _ => false) = true) :
      Step s (.resolve rid v) (applyResolve s rid v)
  | ownerCont (s : MState) (i : Nat) (t : CallTask) (rid : Nat)
      (hget : s.tasks.get? i = some t) (hpc : t.pc = .awaitOwn rid)
      (hres : ((s.requests.get? rid).bind (fun r => r.result)).isSome = true) :
      Step s (.ownerCont i) (applyOwnerCont s i)
  | waiterCont (s : MState) (i : Nat) (t : CallTask) (rid : Nat)
      (hget : s.tasks.get? i = some t) (hpc : t.pc = .awaitShared rid)
      (hres : ((s.requests.get? rid).bind (fun r => r.result)).isSome = true) :
      Step s (.waiterCont i) (applyWaiterCont s i)
  | doCleanup (s : MState) : Step s .doCleanup (applyCleanup s)
  | doClearCache (s : MState) : Step s .doClearCache (applyClearCache s)
  | doClearEntry (s : MState) (k : String) : Step s (.doClearEntry k) (applyClearEntry s k)
  | tick (s : MState) (d : Nat) : Step s (.tick d) (applyTick s d)

/-- The initial state of the exported singleton `apiManager`. -/
def initState : MState :=
  { now := 0, cache := [], pending := [], lastRequestTime := 0,
    requests := [], tasks := [] }

/-- States reachable through `ApiManager`'s public operations. -/
inductive Reach : MState → Prop where
  | init : Reach initState
  | step {s : MState} {e : Event} {s' : MState} :
      Reach s → Step s e s' → Reach s'

/-! ## Generic helper lemmas -/

theorem get?_set_self {α : Type} {l : List α} {i : Nat} {x a : α}
    (h : l.get? i = some x) : (l.set i a).get? i = some a := by
  induction l generalizing i with
  | nil => simp at h
  | cons y rest ih =>
      cases i with
      | zero => simp
      | succ j => simpa using ih (by simpa using h)

theorem length_le_two_of_mem {l : List String} {a b : String}
    (h : ∀ x ∈ l, x = a ∨ x = b) (hn : l.Nodup) : l.length ≤ 2 := by
  match l with
  | [] => simp
  | [_] => simp
  | x :: y :: rest =>
      have hx := h x (by simp)
      have hy := h y (by simp)
      have hxy : x ≠ y := by
        simp only [List.nodup_cons, List.mem_cons] at hn
        exact fun e => hn.1 (Or.inl e)
      cases rest with
      | nil => simp
      | cons z rest' =>
          exfalso
          have hz := h z (by simp)
          have hxz : x ≠ z := by
            simp only [List.nodup_cons, List.mem_cons] at hn
            exact fun e => hn.1 (Or.inr (Or.inl e))
          have hyz : y ≠ z := by
            simp only [List.nodup_cons, List.mem_cons] at hn
            exact fun e => hn.2.1 (Or.inl e)
          rcases hx with rfl | rfl <;> rcases hy with rfl | rfl <;>
            rcases hz with rfl | rfl <;> simp_all

theorem mem_keys_setKey {β : Type} {m : List (String × β)} {k a : String} {v : β}
    (h : a ∈ (setKey m k v).map Prod.fst) : a ∈ m.map Prod.fst ∨ a = k := by
  simp only [List.mem_map] at h ⊢
  obtain ⟨p, hp, rfl⟩ := h
  rcases mem_setKey hp with h' | h'
  · exact Or.inl ⟨p, h', rfl⟩
  · subst h'; exact Or.inr rfl

theorem nodup_keys_setKey {β : Type} {m : List (String × β)} {k : String} {v : β}
    (h : (m.map Prod.fst).Nodup) : ((setKey m k v).map Prod.fst).Nodup := by
  induction m with
  | nil => simp [setKey]
  | cons p rest ih =>
      obtain ⟨k₀, v₀⟩ := p
      simp only [List.map_cons, List.nodup_cons] at h
      by_cases hk : k₀ = k
      · subst hk
        simpa [setKey, List.nodup_cons] using h
      · simp only [setKey, if_neg hk, List.map_cons, List.nodup_cons]
        refine ⟨fun hmem => ?_, ih h.2⟩
        rcases mem_keys_setKey hmem with h' | h'
        · exact h.1 h'
        · exact hk h'

theorem nodup_keys_filter {β : Type} {m : List (String × β)} (q : String × β → Bool)
    (h : (m.map Prod.fst).Nodup) : ((m.filter q).map Prod.fst).Nodup :=
  (((List.filter_sublist m (p := q)).map Prod.fst).nodup) h

/-- First-match characterisation of `List.find?`. -/
theorem find?_first {α : Type} (p : α → Bool) (l : List α) (r : α)
    (h : l.find? p = some r) :
    ∃ i, l.get? i = some r ∧ p r = true ∧
      ∀ j r', j < i → l.get? j = some r' → p r' = false := by
  induction l with
  | nil => simp at h
  | cons x rest ih =>
      cases hpx : p x with
      | true =>
          rw [List.find?_cons_of_pos _ hpx] at h
          cases h
          exact ⟨0, by simp, hpx, fun j r' hj _ => by omega⟩
      | false =>
          rw [List.find?_cons_of_neg _ (by simp [hpx])] at h
          obtain ⟨i, hget, hpr, hfirst⟩ := ih h
          refine ⟨i + 1, by simpa using hget, hpr, fun j r' hj hget' => ?_⟩
          cases j with
          | zero =>
              simp only [List.get?] at hget'
              cases hget'
              exact hpx
          | succ j' => exact hfirst j' r' (by omega) (by simpa using hget')

/-! ## Claims C1 and C10 -/

/-- C1: `smartTypeConversion(value, columnName)` performs heuristic boolean
detection: an empty or all-whitespace value yields the empty string;
otherwise, with `v` the trimmed value lowercased and `c` the column name
lowercased, the result is a boolean exactly when `c` contains one of the
boolean column names or `v` is one of the boolean values, it is `true`
exactly when `v` is one of the truthy values, and in every other case the
result is the trimmed original string unchanged. -/
theorem c1_smartTypeConversion (value columnName : String) :
    (jsTrim value = "" → smartTypeConversion value columnName = Value.str "") ∧
    (jsTrim value ≠ "" →
      (((∃ n ∈ booleanColumnNames, hasSub (jsToLower columnName) n = true) ∨
          jsToLower (jsTrim value) ∈ booleanValues) →
        ((jsToLower (jsTrim value) ∈ truthyValues →
            smartTypeConversion value columnName = Value.bool true) ∧
         (jsToLower (jsTrim value) ∉ truthyValues →
            smartTypeConversion value columnName = Value.bool false))) ∧
      (¬ ((∃ n ∈ booleanColumnNames, hasSub (jsToLower columnName) n = true) ∨
          jsToLower (jsTrim value) ∈ booleanValues) →
        smartTypeConversion value columnName = Value.str (jsTrim value))) := by
  have hbc : ∀ c v, isBooleanColumn c v = true ↔
      ((∃ n ∈ booleanColumnNames, hasSub c n = true) ∨ v ∈ booleanValues) := by
    intro c v
    simp [isBooleanColumn, List.any_eq_true, List.elem_iff]
  have hcb : ∀ v, convertToBool v = true ↔ v ∈ truthyValues := by
    intro v
    simp [convertToBool, List.elem_iff]
  constructor
  · intro he
    simp [smartTypeConversion, he]
  · intro hne
    have hv : ¬ (value = "" ∨ jsTrim value = "") := by
      rintro (rfl | h)
      · exact hne rfl
      · exact hne h
    constructor
    · intro hA
      have hbool : isBooleanColumn (jsToLower columnName) (jsToLower (jsTrim value)) = true :=
        (hbc _ _).2 hA
      constructor
      · intro ht
        simp [smartTypeConversion, hv, hbool, (hcb _).2 ht]
      · intro ht
        have : convertToBool (jsToLower (jsTrim value)) = false := by
          cases hcv : convertToBool (jsToLower (jsTrim value)) with
          | true => exact absurd ((hcb _).1 hcv) ht
          | false => rfl
        simp [smartTypeConversion, hv, hbool, this]
    · intro hA
      have hbool : isBooleanColumn (jsToLower columnName) (jsToLower (jsTrim value)) = false := by
        cases hb : isBooleanColumn (jsToLower columnName) (jsToLower (jsTrim value)) with
        | true => exact absurd ((hbc _ _).1 hb) hA
        | false => rfl
      simp [smartTypeConversion, hv, hbool]

theorem c1_witness :
    jsTrim "Yes " ≠ "" ∧
    smartTypeConversion "Yes " "Name" = Value.bool true :=
  ⟨by decide,
   ((c1_smartTypeConversion "Yes " "Name").2 (by decide)).1 (by decide) |>.1 (by decide)⟩

/-- C10: `getA1Notation(row, col)` (embedded as `toA1`) returns the
bijective base-26 column letters for `col` (0 ↦ A, 25 ↦ Z, 26 ↦ AA, …)
immediately followed by the decimal row number. -/
theorem c10_toA1 (row col : Nat) (_h : 1 ≤ row) :
    toA1 row col = bijBase26 (col + 1) ++ toString row := by
  rw [toA1, numberToColumnLetter_eq_bijBase26]

theorem c10_witness :
    1 ≤ 3 ∧ toA1 3 702 = bijBase26 703 ++ toString 3 :=
  ⟨by decide, c10_toA1 3 702 (by decide)⟩

/-! ## Claim C5 -/

/-- The padded cell read of the `forEach` body of `transformRawDataToRows`:
`''` for a column index past the end of the row, `row[colIndex] || ''`
otherwise. -/
def cellAt (row : List String) (i : Nat) : String :=
  if i < row.length then row.getD i "" else ""

theorem applyHeaders_not_mem (row : List String) (hs : List String) (colIdx : Nat)
    (acc : Row) (k : String) (hk : k ∉ hs) :
    lookupKey (applyHeaders row colIdx hs acc) k = lookupKey acc k := by
  induction hs generalizing colIdx acc with
  | nil => rfl
  | cons h rest ih =>
      simp only [List.mem_cons, not_or] at hk
      rw [applyHeaders, ih _ _ hk.2, lookupKey_setKey_ne _ _ _ _ hk.1]

theorem applyHeaders_get (row : List String) (hs : List String) (colIdx : Nat)
    (acc : Row) (j : Nat) (hd : String) (hnd : hs.Nodup) (hj : hs.get? j = some hd) :
    lookupKey (applyHeaders row colIdx hs acc) hd =
      some (smartTypeConversion (cellAt row (colIdx + j)) hd) := by
  induction hs generalizing colIdx acc j with
  | nil => simp at hj
  | cons h rest ih =>
      simp only [List.nodup_cons] at hnd
      cases j with
      | zero =>
          simp only [List.get?] at hj
          cases hj
          rw [applyHeaders, applyHeaders_not_mem _ _ _ _ _ hnd.1,
            lookupKey_setKey_self]
          simp [cellAt]
      | succ j' =>
          simp only [List.get?] at hj
          rw [applyHeaders, ih _ _ j' hnd.2 hj]
          have harith : colIdx + 1 + j' = colIdx + (j' + 1) := by omega
          rw [harith]

theorem buildRows_get (eff : List String) (rows : List (List String)) (i j : Nat) :
    ∀ row, rows.get? j = some row →
      (buildRows eff i rows).get? j = some (mkRowObject eff (i + j) row) := by
  induction rows generalizing i j with
  | nil => intro row h; simp at h
  | cons r rest ih =>
      intro row h
      cases j with
      | zero =>
          simp only [List.get?] at h
          cases h
          simp [buildRows]
      | succ j' =>
          simp only [List.get?] at h
          have := ih (i + 1) j' row h
          simpa [buildRows, Nat.add_assoc, Nat.add_comm 1 j'] using this

theorem buildRows_length (eff : List String) (rows : List (List String)) (i : Nat) :
    (buildRows eff i rows).length = rows.length := by
  induction rows generalizing i with
  | nil => rfl
  | cons r rest ih => simp [buildRows, ih]

/-- C5 (amended): for a raw grid with at least one (header) row, and
effective headers (the configured headers when non-empty, else the sheet's
own header row) that are pairwise distinct and do not contain the reserved
names `_id` and `_rowIndex`, `transformRawDataToRows` produces exactly one
record per data row; the record of 0-based data row `i` has `_id` equal to
the row's first cell when that cell is non-empty and `row_(i+1)` otherwise,
has `_rowIndex = i+1`, and maps each effective header at column `j` to the
converted cell at `j`, cells past the end of the row being treated as the
empty string. -/
theorem c5_transformRawDataToRows (configHeaders sheetHeaders : List String)
    (dataRows : List (List String)) (eff : List String)
    (hEff : eff = if configHeaders.length > 0 then configHeaders else sheetHeaders)
    (hnd : eff.Nodup) (hId : "_id" ∉ eff) (hRowIdx : "_rowIndex" ∉ eff) :
    (transformRawDataToRows configHeaders (sheetHeaders :: dataRows)).length
        = dataRows.length ∧
    ∀ i row, dataRows.get? i = some row →
      ∃ rec, (transformRawDataToRows configHeaders (sheetHeaders :: dataRows)).get? i
          = some rec ∧
        lookupKey rec "_id" =
          some (Value.str (if row.headD "" ≠ "" then row.headD ""
                           else "row_" ++ toString (i + 1))) ∧
        lookupKey rec "_rowIndex" = some (Value.num (Int.ofNat (i + 1))) ∧
        ∀ j hd, eff.get? j = some hd →
          lookupKey rec hd = some (smartTypeConversion (cellAt row j) hd) := by
  have htr : transformRawDataToRows configHeaders (sheetHeaders :: dataRows)
      = buildRows eff 0 dataRows := by
    rw [transformRawDataToRows, ← hEff]
  constructor
  · rw [htr, buildRows_length]
  · intro i row h
    refine ⟨mkRowObject eff i row, ?_, ?_, ?_, ?_⟩
    · rw [htr]
      simpa using buildRows_get eff dataRows 0 i row h
    · rw [mkRowObject, applyHeaders_not_mem _ _ _ _ _ hId]
      simp [lookupKey]
    · rw [mkRowObject, applyHeaders_not_mem _ _ _ _ _ hRowIdx]
      simp [lookupKey]
    · intro j hd hj
      rw [mkRowObject, applyHeaders_get _ _ _ _ j hd hnd hj]
      simp

theorem c5_witness :
    (["Name", "Done"] : List String).Nodup ∧
    ("_id" : String) ∉ (["Name", "Done"] : List String) ∧
    ∃ rec,
      (transformRawDataToRows [] [["Name", "Done"], ["", "yes"]]).get? 0 = some rec ∧
      lookupKey rec "_id" = some (Value.str "row_1") ∧
      lookupKey rec "_rowIndex" = some (Value.num 1) ∧
      lookupKey rec "Done" = some (Value.bool true) := by
  refine ⟨by decide, by decide, ?_⟩
  obtain ⟨-, h⟩ := c5_transformRawDataToRows [] ["Name", "Done"] [["", "yes"]]
    ["Name", "Done"] (by decide) (by decide) (by decide) (by decide)
  obtain ⟨rec, h1, h2, h3, h4⟩ := h 0 ["", "yes"] (by decide)
  refine ⟨rec, h1, by simpa using h2, h3, ?_⟩
  have := h4 1 "Done" (by decide)
  simpa using this

/-- C5 (counterexample to the claim as stated): with effective headers
containing the reserved name `_id` (grid `[["_id"], ["yes"]]`, no configured
headers), the per-header assignment overwrites the record's `_id`: the data
row's first cell is the non-empty string `"yes"`, yet `_id` ends up the
boolean `true`, not `"yes"`. -/
theorem c5_counterexample :
    lookupKey ((transformRawDataToRows [] [["_id"], ["yes"]]).getD 0 []) "_id"
        = some (Value.bool true) ∧
    some (Value.bool true) ≠ some (Value.str "yes") := by
  constructor
  · decide
  · decide

/-! ## Claim C6 -/

theorem rowMatchesId_iff (headers : List String) (id : Value) (row : Row) :
    rowMatchesId headers id row = true ↔
      (lookupKey row "_id" = some id ∨
       (headers = [] ∧ lookupKey row "undefined" = some id) ∨
       ∃ h t, headers = h :: t ∧ lookupKey row h = some id) := by
  cases headers with
  | nil =>
      simp only [rowMatchesId, Bool.or_eq_true, decide_eq_true_eq]
      constructor
      · rintro (h1 | h2)
        · exact Or.inl h1
        · exact Or.inr (Or.inl ⟨by trivial, h2⟩)
      · rintro (h1 | ⟨-, h2⟩ | ⟨h', t', hEq, -⟩)
        · exact Or.inl h1
        · exact Or.inr h2
        · cases hEq
  | cons h t =>
      simp only [rowMatchesId, Bool.or_eq_true, decide_eq_true_eq]
      constructor
      · rintro (h1 | h2)
        · exact Or.inl h1
        · exact Or.inr (Or.inr ⟨h, t, rfl, h2⟩)
      · rintro (h1 | ⟨hEq, -⟩ | ⟨h', t', hEq, hl⟩)
        · exact Or.inl h1
        · cases hEq
        · injection hEq with e1 e2
          subst e1
          exact Or.inr hl

/-- C6 (amended): `getRowById(identifier)` returns the first row whose
`_id` equals the identifier or whose value in the first configured header
equals the identifier — with no configured headers, JavaScript key coercion
makes the second comparison read the property literally named
`"undefined"`, so a row with a column of that name whose value equals the
identifier also matches — and `null` exactly when no row matches;
`SheetApi.getRow` wraps the outcome as a `success = true` response carrying
the (possibly null) row whether or not a row was found. -/
theorem c6_getRowById (headers : List String) (rows : List Row) (id : Value)
    (ts : String) :
    (∀ r, getRowById headers rows id = some r →
        (lookupKey r "_id" = some id ∨
         (headers = [] ∧ lookupKey r "undefined" = some id) ∨
         ∃ h t, headers = h :: t ∧ lookupKey r h = some id) ∧
        ∃ i, rows.get? i = some r ∧
          ∀ j r', j < i → rows.get? j = some r' →
            ¬ (lookupKey r' "_id" = some id ∨
               (headers = [] ∧ lookupKey r' "undefined" = some id) ∨
               ∃ h t, headers = h :: t ∧ lookupKey r' h = some id)) ∧
    (getRowById headers rows id = none ↔
        ∀ r ∈ rows, ¬ (lookupKey r "_id" = some id ∨
           (headers = [] ∧ lookupKey r "undefined" = some id) ∨
           ∃ h t, headers = h :: t ∧ lookupKey r h = some id)) ∧
    (sheetApiGetRow headers (Except.ok rows) id ts).success = true ∧
    (sheetApiGetRow headers (Except.ok rows) id ts).data
        = some (getRowById headers rows id) := by
  refine ⟨?_, ?_, ?_, ?_⟩
  · intro r h
    have hp := List.find?_some h
    obtain ⟨i, hget, hpr, hfirst⟩ := find?_first _ _ _ h
    refine ⟨(rowMatchesId_iff headers id r).1 hp, i, hget, fun j r' hj hget' hmatch => ?_⟩
    have := hfirst j r' hj hget'
    rw [(rowMatchesId_iff headers id r').2 hmatch] at this
    simp at this
  · rw [getRowById, List.find?_eq_none]
    constructor
    · intro h r hr hmatch
      exact h r hr ((rowMatchesId_iff headers id r).2 hmatch)
    · intro h r hr hp
      exact h r hr ((rowMatchesId_iff headers id r).1 hp)
  · rfl
  · rfl

theorem c6_witness :
    (sheetApiGetRow ["Name"] (Except.ok [[("_id", Value.str "1")]])
        (Value.str "1") "t").success = true ∧
    (lookupKey [("_id", Value.str "1")] "_id" = some (Value.str "1") ∨
     ((["Name"] : List String) = [] ∧
       lookupKey [("_id", Value.str "1")] "undefined" = some (Value.str "1")) ∨
     ∃ h t, (["Name"] : List String) = h :: t ∧
       lookupKey [("_id", Value.str "1")] h = some (Value.str "1")) :=
  ⟨(c6_getRowById ["Name"] [[("_id", Value.str "1")]] (Value.str "1") "t").2.2.1,
   ((c6_getRowById ["Name"] [[("_id", Value.str "1")]] (Value.str "1") "t").1
      [("_id", Value.str "1")] (by decide)).1⟩

/-- C6 (counterexample to the claim as stated): with no configured headers,
`row[this.config.headers[0]]` reads the property named `"undefined"`.  For
the sheet grid `[["undefined"], [" abc "]]` (header row names a column
`undefined`), the produced row has `_id = " abc "` (the raw first cell) and
property `"undefined" = "abc"` (the converted, trimmed cell), so
`getRowById("abc")` returns that row even though no row's `_id` matches and
no header is configured — where the claim says it returns null. -/
theorem c6_counterexample :
    getRowById [] (transformRawDataToRows [] [["undefined"], [" abc "]])
        (Value.str "abc")
      = some [("_id", Value.str " abc "), ("_rowIndex", Value.num 1),
              ("undefined", Value.str "abc")] ∧
    lookupKey [("_id", Value.str " abc "), ("_rowIndex", Value.num 1),
               ("undefined", Value.str "abc")] "_id" ≠ some (Value.str "abc") := by
  constructor
  · decide
  · decide

/-! ## Claim C7 -/

/-- C7 (amended): when the identifier matches no row or the field is not
among the configured headers, `updateField` returns a failure response
naming the missing row (checked first) or the missing field, issues no
write request, and performs no cache invalidation — the client cache after
the call is exactly the cache left by the embedded `getAllData` read (which
may have populated it on a cache miss). -/
theorem c7_updateField (cfg : List String) (fmt : Value → String → String)
    (dataTypes : String → String) (now : Nat)
    (fetch : Except String (Option (List (List String))))
    (writeOutcome : Except String ApiResp)
    (st : Option (List Row × Nat)) (params : UpdateOp)
    (rows : List Row) (st1 : Option (List Row × Nat))
    (hread : clientGetAllData now cfg fetch st = (Except.ok rows, st1))
    (hmiss : findRowByIdentifier cfg rows params.identifier = -1 ∨
             indexOfHeader cfg params.field = -1) :
    (updateField cfg fmt dataTypes now fetch writeOutcome st params).1.success = false ∧
    (findRowByIdentifier cfg rows params.identifier = -1 →
      (updateField cfg fmt dataTypes now fetch writeOutcome st params).1.error =
        some ("Row with identifier " ++ jsValToString params.identifier
              ++ " not found")) ∧
    (findRowByIdentifier cfg rows params.identifier ≠ -1 →
      (updateField cfg fmt dataTypes now fetch writeOutcome st params).1.error =
        some ("Field " ++ params.field ++ " not found in headers")) ∧
    (updateField cfg fmt dataTypes now fetch writeOutcome st params).2.2 = false ∧
    (updateField cfg fmt dataTypes now fetch writeOutcome st params).2.1 = st1 := by
  by_cases hrow : findRowByIdentifier cfg rows params.identifier = -1
  · refine ⟨?_, fun _ => ?_, fun h => absurd hrow h, ?_, ?_⟩ <;>
      simp [updateField, hread, hrow]
  · have hcol : indexOfHeader cfg params.field = -1 := hmiss.resolve_left hrow
    refine ⟨?_, fun h => absurd h hrow, fun _ => ?_, ?_, ?_⟩ <;>
      simp [updateField, hread, hrow, hcol]

theorem c7_witness :
    clientGetAllData 5 ["name"] (Except.ok (some [["name"], ["alice"]])) none
      = (Except.ok [[("_id", Value.str "alice"), ("_rowIndex", Value.num 1),
                     ("name", Value.str "alice")]],
         some ([[("_id", Value.str "alice"), ("_rowIndex", Value.num 1),
                 ("name", Value.str "alice")]], 5)) ∧
    (updateField ["name"] (fun _ _ => "") (fun _ => "text") 5
        (Except.ok (some [["name"], ["alice"]])) (Except.ok { success := true }) none
        { identifier := Value.str "bob", field := "name",
          newValue := Value.str "x", oldValue := none }).1.success = false ∧
    (updateField ["name"] (fun _ _ => "") (fun _ => "text") 5
        (Except.ok (some [["name"], ["alice"]])) (Except.ok { success := true }) none
        { identifier := Value.str "bob", field := "name",
          newValue := Value.str "x", oldValue := none }).2.2 = false := by
  have h := c7_updateField ["name"] (fun _ _ => "") (fun _ => "text") 5
    (Except.ok (some [["name"], ["alice"]])) (Except.ok { success := true }) none
    { identifier := Value.str "bob", field := "name",
      newValue := Value.str "x", oldValue := none }
    [[("_id", Value.str "alice"), ("_rowIndex", Value.num 1),
      ("name", Value.str "alice")]]
    (some ([[("_id", Value.str "alice"), ("_rowIndex", Value.num 1),
             ("name", Value.str "alice")]], 5))
    (by decide) (Or.inl (by decide))
  exact ⟨by decide, h.1, h.2.2.2.1⟩

/-- C7 (counterexample to the claim as stated): from a cold client cache, a
failed update (identifier matching no row) still changes the cache — the
embedded `getAllData` read populates it — so the update does not leave the
client cache unchanged, although it performs no invalidation and issues no
write. -/
theorem c7_counterexample :
    (updateField ["name"] (fun _ _ => "") (fun _ => "text") 5
        (Except.ok (some [["name"], ["alice"]])) (Except.ok { success := true }) none
        { identifier := Value.str "bob", field := "name",
          newValue := Value.str "x", oldValue := none }).1.success = false ∧
    (updateField ["name"] (fun _ _ => "") (fun _ => "text") 5
        (Except.ok (some [["name"], ["alice"]])) (Except.ok { success := true }) none
        { identifier := Value.str "bob", field := "name",
          newValue := Value.str "x", oldValue := none }).2.2 = false ∧
    (updateField ["name"] (fun _ _ => "") (fun _ => "text") 5
        (Except.ok (some [["name"], ["alice"]])) (Except.ok { success := true }) none
        { identifier := Value.str "bob", field := "name",
          newValue := Value.str "x", oldValue := none }).2.1
      ≠ (none : Option (List Row × Nat)) := by
  refine ⟨by decide, by decide, by decide⟩

/-! ## Claim C8 -/

theorem google_error_ne_empty (e : String) :
    ("Google Sheets API Error: " ++ e) ≠ "" := by
  intro h
  have hd := congrArg String.data h
  rw [String.data_append] at hd
  simp at hd

/-- C8: `SheetApi.getAllData` never rejects — it is a total function of the
client outcome — and every outcome yields a response carrying the current
ISO timestamp; `success = true` implies the data field is a non-empty list
of rows, and an empty or missing data set (an empty client result or a
client error) always yields `success = false` with a non-empty error
message. -/
theorem c8_sheetApiGetAllData (outcome : Except String (List Row)) (ts : String) :
    (sheetApiGetAllData outcome ts).timestamp = some ts ∧
    ((sheetApiGetAllData outcome ts).success = true →
      ∃ rows, (sheetApiGetAllData outcome ts).data = some rows ∧ rows ≠ []) ∧
    ((outcome = Except.ok [] ∨ ∃ e, outcome = Except.error e) →
      (sheetApiGetAllData outcome ts).success = false ∧
      ∃ m, (sheetApiGetAllData outcome ts).error = some m ∧ m ≠ "") := by
  match outcome with
  | .error e =>
      refine ⟨rfl, ?_, ?_⟩
      · intro h
        simp [sheetApiGetAllData] at h
      · intro _
        exact ⟨rfl, _, rfl, google_error_ne_empty e⟩
  | .ok rows =>
      by_cases hlen : rows.length = 0
      · have hnil : rows = [] := List.length_eq_zero.1 hlen
        subst hnil
        refine ⟨rfl, ?_, ?_⟩
        · intro h
          simp [sheetApiGetAllData] at h
        · intro _
          exact ⟨rfl,
            "No data found in the sheet. Please ensure your Google Sheet contains data and check your configuration.",
            rfl, by decide⟩
      · refine ⟨by simp [sheetApiGetAllData, hlen], ?_, ?_⟩
        · intro _
          refine ⟨rows, by simp [sheetApiGetAllData, hlen], ?_⟩
          intro hnil
          exact hlen (by simp [hnil])
        · rintro (hok | ⟨e, he⟩)
          · cases hok
            simp at hlen
          · cases he

theorem c8_witness :
    (sheetApiGetAllData (Except.ok []) "2024-01-15T10:30:00Z").success = false ∧
    ∃ m, (sheetApiGetAllData (Except.ok []) "2024-01-15T10:30:00Z").error = some m
           ∧ m ≠ "" :=
  (c8_sheetApiGetAllData (Except.ok []) "2024-01-15T10:30:00Z").2.2 (Or.inl rfl)

/-! ## Concrete values and traces for the `ApiManager` claims -/

/-- A successful `getAllData` response used by the concrete traces. -/
def rOK : Resp (List Row) :=
  { success := true,
    data := some [[("_id", Value.str "1"), ("_rowIndex", Value.num 1)]],
    message := some "Successfully retrieved 1 rows from Google Sheets",
    timestamp := some "2024-01-15T10:30:00Z" }

/-- A quick-connection-test result used by the concrete traces. -/
def qOK : QuickResult := { connected := true, rowCount := some 1 }

/-- A one-entry manager cache holding a successful `getAllData` response
stored at time 0 with the default 30 s TTL. -/
def c2cache : List (String × CachedResponse) :=
  [("getAllData", { data := CacheVal.allData rOK, timestamp := 0, ttl := 30000 })]

/-- The cache entry of `c2cache`. -/
def e0 : CachedResponse := { data := CacheVal.allData rOK, timestamp := 0, ttl := 30000 }

/-- Trace: one successful `getAllData` call followed by one successful
`quickConnectionTest` call. -/
def tr1 : MState := applySpawn initState OpKind.data
def tr2 : MState := applyEntrySection tr1 0
def tr3 : MState := applyStartReq tr2 0
def tr4 : MState := applyResolve tr3 0 (CacheVal.allData rOK)
def tr5 : MState := applyOwnerCont tr4 0
def tr6 : MState := applySpawn tr5 OpKind.quick
def tr7 : MState := applyEntrySection tr6 1
def tr8 : MState := applyStartReq tr7 1
def tr9 : MState := applyResolve tr8 1 (CacheVal.quick qOK)
def tr10 : MState := applyOwnerCont tr9 1

theorem reach_tr5 : Reach tr5 :=
  Reach.step
    (Reach.step
      (Reach.step
        (Reach.step
          (Reach.step Reach.init (Step.spawn initState OpKind.data))
          (Step.runEntrySection tr1 0 { op := OpKind.data, pc := TaskPC.ready }
            (by decide) (by decide)))
        (Step.startReq tr2 0 { op := OpKind.data, pc := TaskPC.rateWait }
          (by decide) (by decide)))
      (Step.resolve tr3 0 { op := OpKind.data } (CacheVal.allData rOK)
        (by decide) (by decide) (by decide)))
    (Step.ownerCont tr4 0 { op := OpKind.data, pc := TaskPC.awaitOwn 0 } 0
      (by decide) (by decide) (by decide))

theorem reach_tr10 : Reach tr10 :=
  Reach.step
    (Reach.step
      (Reach.step
        (Reach.step
          (Reach.step reach_tr5 (Step.spawn tr5 OpKind.quick))
          (Step.runEntrySection tr6 1 { op := OpKind.quick, pc := TaskPC.ready }
            (by decide) (by decide)))
        (Step.startReq tr7 1 { op := OpKind.quick, pc := TaskPC.rateWait }
          (by decide) (by decide)))
      (Step.resolve tr8 1 { op := OpKind.quick } (CacheVal.quick qOK)
        (by decide) (by decide) (by decide)))
    (Step.ownerCont tr9 1 { op := OpKind.quick, pc := TaskPC.awaitOwn 1 } 1
      (by decide) (by decide) (by decide))

/-- Race trace: two `getAllData` calls arrive in the same tick; both pass
the pending-request check before either registers its request (the
suspension at `await this.enforceRateLimit()` separates the check from the
registration), so both start an underlying request. -/
def dbl1 : MState := applySpawn initState OpKind.data
def dbl2 : MState := applySpawn dbl1 OpKind.data
def dbl3 : MState := applyEntrySection dbl2 0
def dbl4 : MState := applyEntrySection dbl3 1
def dbl5 : MState := applyStartReq dbl4 0
def dbl6 : MState := applyStartReq dbl5 1

theorem reach_dbl5 : Reach dbl5 :=
  Reach.step
    (Reach.step
      (Reach.step
        (Reach.step
          (Reach.step Reach.init (Step.spawn initState OpKind.data))
          (Step.spawn dbl1 OpKind.data))
        (Step.runEntrySection dbl2 0 { op := OpKind.data, pc := TaskPC.ready }
          (by decide) (by decide)))
      (Step.runEntrySection dbl3 1 { op := OpKind.data, pc := TaskPC.ready }
        (by decide) (by decide)))
    (Step.startReq dbl4 0 { op := OpKind.data, pc := TaskPC.rateWait }
      (by decide) (by decide))

theorem reach_dbl6 : Reach dbl6 :=
  Reach.step reach_dbl5
    (Step.startReq dbl5 1 { op := OpKind.data, pc := TaskPC.rateWait }
      (by decide) (by decide))

/-! ## Claim C2 -/

/-- C2 (counterexample to the claim as stated): a caller-supplied custom
TTL of `0` ms does not override the stored TTL, because `customTtl ||
cached.ttl` treats `0` as falsy.  For an entry stored at time 0 with
stored TTL 30000, a read at time 1 with custom TTL 0 returns the stored
response even though `now - t > 0 = customTtl`. -/
theorem c2_counterexample :
    (getCachedResponse 1 c2cache "getAllData" (some 0)).1
        = some (CacheVal.allData rOK) ∧
    ¬ ((1 : Nat) - 0 ≤ 0) := by
  constructor
  · decide
  · decide

/-- C2 (amended): an entry stored at time `t` with TTL `ttl` is read back
exactly while `now - t ≤ ttl'`, where `ttl'` is the caller-supplied custom
TTL when it is given and non-zero (JavaScript `customTtl || cached.ttl`)
and the stored TTL otherwise; when `now - t > ttl'` the read deletes the
entry and returns null, and a `ready` call that finds no cached response
and no pending request proceeds to the rate-limit suspension, from which
`startReq` issues a fresh underlying API request. -/
theorem c2_cacheTtl :
    (∀ (t₀ : Nat) (cache : List (String × CachedResponse)) (key : String)
       (v : CacheVal) (ttl : Nat),
       lookupKey (setCacheEntry t₀ cache key v ttl) key
         = some { data := v, timestamp := t₀, ttl := ttl }) ∧
    (∀ (cache : List (String × CachedResponse)) (key : String)
       (custom : Option Nat) (now : Nat) (entry : CachedResponse),
       lookupKey cache key = some entry →
       ((getCachedResponse now cache key custom).1 = some entry.data ↔
          now - entry.timestamp ≤ jsOr custom entry.ttl) ∧
       (now - entry.timestamp ≤ jsOr custom entry.ttl →
          (getCachedResponse now cache key custom).2 = cache) ∧
       (now - entry.timestamp > jsOr custom entry.ttl →
          (getCachedResponse now cache key custom).1 = none ∧
          lookupKey (getCachedResponse now cache key custom).2 key = none)) ∧
    (∀ (s : MState) (i : Nat) (t : CallTask),
       s.tasks.get? i = some t → t.pc = TaskPC.ready →
       (getCachedResponse s.now s.cache (keyFor t.op) (customFor t.op)).1 = none →
       lookupKey s.pending (keyFor t.op) = none →
       (applyEntrySection s i).tasks.get? i = some { op := t.op, pc := TaskPC.rateWait }) := by
  refine ⟨?_, ?_, ?_⟩
  · intro t₀ cache key v ttl
    rw [setCacheEntry, lookupKey_setKey_self]
  · intro cache key custom now entry h
    by_cases hexp : now - entry.timestamp > jsOr custom entry.ttl
    · refine ⟨?_, ?_, ?_⟩
      · rw [getCachedResponse, h]
        simp only [if_pos hexp]
        constructor
        · intro hcontra; cases hcontra
        · intro hle; omega
      · intro hle; omega
      · intro _
        rw [getCachedResponse, h]
        simp only [if_pos hexp]
        simp
    · push_neg at hexp
      refine ⟨?_, ?_, ?_⟩
      · rw [getCachedResponse, h]
        simp only [if_neg (by omega : ¬ now - entry.timestamp > jsOr custom entry.ttl)]
        simp [hexp]
      · intro _
        rw [getCachedResponse, h]
        simp only [if_neg (by omega : ¬ now - entry.timestamp > jsOr custom entry.ttl)]
      · intro hgt; omega
  · intro s i t hget hpc hmiss hpend
    cases t with
    | mk op pc =>
        simp only [applyEntrySection, hget]
        simp only at hmiss hpend
        simp only [hmiss, hpend]
        exact get?_set_self hget

theorem c2_witness :
    lookupKey c2cache "getAllData" = some e0 ∧
    ((getCachedResponse 10 c2cache "getAllData" none).1
        = some e0.data ↔ 10 - e0.timestamp ≤ jsOr none e0.ttl) :=
  ⟨by decide, (c2_cacheTtl.2.1 c2cache "getAllData" none 10 e0 (by decide)).1⟩

/-! ## Cache-effect lemmas for the machine steps -/

theorem mem_getCachedResponse_snd {now : Nat} {cache : List (String × CachedResponse)}
    {key : String} {custom : Option Nat} {p : String × CachedResponse}
    (h : p ∈ (getCachedResponse now cache key custom).2) : p ∈ cache := by
  unfold getCachedResponse at h
  split at h
  · exact h
  · dsimp only at h
    split at h
    · exact mem_delKey h
    · exact h

theorem cache_applyEntrySection_subset {s : MState} {i : Nat} {p : String × CachedResponse}
    (h : p ∈ (applyEntrySection s i).cache) : p ∈ s.cache := by
  unfold applyEntrySection at h
  split at h
  · exact h
  · dsimp only at h
    split at h
    · exact mem_getCachedResponse_snd h
    · split at h
      · exact mem_getCachedResponse_snd h
      · exact mem_getCachedResponse_snd h

theorem cache_applyOwnerCont {s : MState} {i : Nat} {p : String × CachedResponse}
    (h : p ∈ (applyOwnerCont s i).cache) :
    p ∈ s.cache ∨
    (∃ r, p = ("getAllData",
        { data := CacheVal.allData r, timestamp := s.now, ttl := 30000 })
       ∧ r.success = true) ∨
    (∃ v, p = ("quickTest", { data := v, timestamp := s.now, ttl := 10000 })) := by
  unfold applyOwnerCont at h
  split at h
  · exact Or.inl h
  · rename_i t hget
    split at h
    · split at h
      · exact Or.inl h
      · rename_i rid v hres
        dsimp only at h
        cases v with
        | allData r =>
            cases htop : t.op with
            | data =>
                simp only [htop, keyFor, setCacheEntry] at h
                by_cases hsucc : r.success = true
                · simp only [if_pos hsucc] at h
                  rcases mem_setKey h with h' | h'
                  · exact Or.inl h'
                  · exact Or.inr (Or.inl ⟨r, h', hsucc⟩)
                · simp only [if_neg hsucc] at h
                  exact Or.inl h
            | quick =>
                simp only [htop, keyFor, setCacheEntry] at h
                rcases mem_setKey h with h' | h'
                · exact Or.inl h'
                · exact Or.inr (Or.inr ⟨_, h'⟩)
        | quick q =>
            cases htop : t.op with
            | data =>
                simp only [htop, keyFor, setCacheEntry] at h
                exact Or.inl h
            | quick =>
                simp only [htop, keyFor, setCacheEntry] at h
                rcases mem_setKey h with h' | h'
                · exact Or.inl h'
                · exact Or.inr (Or.inr ⟨_, h'⟩)
    · exact Or.inl h

theorem cache_applySpawn_eq (s : MState) (op : OpKind) :
    (applySpawn s op).cache = s.cache := rfl

theorem cache_applyStartReq_eq (s : MState) (i : Nat) :
    (applyStartReq s i).cache = s.cache := by
  unfold applyStartReq
  split <;> rfl

theorem cache_applyResolve_eq (s : MState) (rid : Nat) (v : CacheVal) :
    (applyResolve s rid v).cache = s.cache := by
  unfold applyResolve
  split <;> rfl

theorem cache_applyWaiterCont_eq (s : MState) (i : Nat) :
    (applyWaiterCont s i).cache = s.cache := by
  unfold applyWaiterCont
  split
  · rfl
  · split
    · split
      · rfl
      · rfl
    · rfl

theorem cache_applyTick_eq (s : MState) (d : Nat) :
    (applyTick s d).cache = s.cache := rfl

/-! ## Claim C9 -/

/-- C9: in every reachable `ApiManager` state, any cache entry stored under
the key `'getAllData'` is a `getAllData` response with `success = true` —
`makeNewRequest` caches only successful responses, so a failed fetch is
never replayed from the cache. -/
theorem c9_cacheOnlySuccess (s : MState) (h : Reach s) :
    ∀ e : CachedResponse, ("getAllData", e) ∈ s.cache →
      ∃ r, e.data = CacheVal.allData r ∧ r.success = true := by
  induction h with
  | init => intro e he; simp [initState] at he
  | step hs hstep ih =>
      intro e he
      cases hstep with
      | spawn op => exact ih e (by rwa [cache_applySpawn_eq] at he)
      | runEntrySection i t hget hpc => exact ih e (cache_applyEntrySection_subset he)
      | startReq i t hget hpc => exact ih e (by rwa [cache_applyStartReq_eq] at he)
      | resolve rid req v hget hres hop =>
          exact ih e (by rwa [cache_applyResolve_eq] at he)
      | ownerCont i t rid hget hpc hres =>
          rcases cache_applyOwnerCont he with hmem | ⟨r, hp, hsucc⟩ | ⟨v, hp⟩
          · exact ih e hmem
          · simp only [Prod.mk.injEq] at hp
            exact ⟨r, by rw [hp.2], hsucc⟩
          · simp only [Prod.mk.injEq] at hp
            exact absurd hp.1 (by decide)
      | waiterCont i t rid hget hpc hres =>
          exact ih e (by rwa [cache_applyWaiterCont_eq] at he)
      | doCleanup =>
          exact ih e (List.mem_of_mem_filter he)
      | doClearCache => simp [applyClearCache] at he
      | doClearEntry k => exact ih e (mem_delKey he)
      | tick d => exact ih e (by rwa [cache_applyTick_eq] at he)

theorem c9_witness :
    ∃ r, e0.data = CacheVal.allData r ∧ r.success = true :=
  c9_cacheOnlySuccess tr5 reach_tr5 e0 (by decide)

/-! ## Claim C4 -/

theorem nodup_getCachedResponse_snd {now : Nat} {cache : List (String × CachedResponse)}
    {key : String} {custom : Option Nat} (h : (cache.map Prod.fst).Nodup) :
    (((getCachedResponse now cache key custom).2).map Prod.fst).Nodup := by
  unfold getCachedResponse
  split
  · exact h
  · dsimp only
    split
    · exact nodup_keys_filter _ h
    · exact h

theorem cache_applyEntrySection_eq {s : MState} {i : Nat} {t : CallTask}
    (hget : s.tasks.get? i = some t) :
    (applyEntrySection s i).cache
      = (getCachedResponse s.now s.cache (keyFor t.op) (customFor t.op)).2 := by
  unfold applyEntrySection
  rw [hget]
  dsimp only
  split
  · rfl
  · split
    · rfl
    · rfl

theorem nodup_cache_applyOwnerCont {s : MState} {i : Nat}
    (h : (s.cache.map Prod.fst).Nodup) :
    (((applyOwnerCont s i).cache).map Prod.fst).Nodup := by
  unfold applyOwnerCont
  split
  · exact h
  · split
    · split
      · exact h
      · dsimp only
        split
        · split
          · exact nodup_keys_setKey h
          · exact h
        · exact h
        · exact nodup_keys_setKey h
    · exact h

theorem cache_applyOwnerCont_lookup_none {s : MState} {i : Nat} {k : String}
    (hnone : lookupKey (applyOwnerCont s i).cache k = none) :
    lookupKey s.cache k = none := by
  unfold applyOwnerCont at hnone
  split at hnone
  · exact hnone
  · rename_i t hget
    split at hnone
    · split at hnone
      · exact hnone
      · rename_i rid v hres
        dsimp only at hnone
        cases v with
        | allData r =>
            cases htop : t.op with
            | data =>
                simp only [htop, keyFor, setCacheEntry] at hnone
                by_cases hsucc : r.success = true
                · simp only [if_pos hsucc] at hnone
                  by_cases hk : k = "getAllData"
                  · subst hk
                    rw [lookupKey_setKey_self] at hnone
                    cases hnone
                  · rwa [lookupKey_setKey_ne _ _ _ _ hk] at hnone
                · simpa only [if_neg hsucc] using hnone
            | quick =>
                simp only [htop, keyFor, setCacheEntry] at hnone
                by_cases hk : k = "quickTest"
                · subst hk
                  rw [lookupKey_setKey_self] at hnone
                  cases hnone
                · rwa [lookupKey_setKey_ne _ _ _ _ hk] at hnone
        | quick q =>
            cases htop : t.op with
            | data =>
                simpa only [htop, keyFor, setCacheEntry] using hnone
            | quick =>
                simp only [htop, keyFor, setCacheEntry] at hnone
                by_cases hk : k = "quickTest"
                · subst hk
                  rw [lookupKey_setKey_self] at hnone
                  cases hnone
                · rwa [lookupKey_setKey_ne _ _ _ _ hk] at hnone
    · exact hnone

theorem getCachedResponse_snd_del {now : Nat} {cache : List (String × CachedResponse)}
    {key : String} {custom : Option Nat} {k : String} {entry : CachedResponse}
    (hsome : lookupKey cache k = some entry)
    (hnone : lookupKey (getCachedResponse now cache key custom).2 k = none) :
    k = key ∧ now - entry.timestamp > jsOr custom entry.ttl := by
  unfold getCachedResponse at hnone
  cases hl : lookupKey cache key with
  | none =>
      rw [hl] at hnone
      dsimp only at hnone
      rw [hsome] at hnone
      cases hnone
  | some cached =>
      rw [hl] at hnone
      dsimp only at hnone
      by_cases hexp : now - cached.timestamp > jsOr custom cached.ttl
      · rw [if_pos hexp] at hnone
        dsimp only at hnone
        by_cases hk : k = key
        · subst hk
          rw [hl] at hsome
          injection hsome with he
          subst he
          exact ⟨rfl, hexp⟩
        · rw [lookupKey_delKey_ne _ _ _ hk, hsome] at hnone
          cases hnone
      · rw [if_neg hexp] at hnone
        dsimp only at hnone
        rw [hsome] at hnone
        cases hnone

/-- The states reachable through `ApiManager`'s public operations keep the
cache well formed: every entry sits under one of the two endpoint keys and
the keys are distinct. -/
theorem reach_cache_wf (s : MState) (h : Reach s) :
    (∀ p ∈ s.cache, p.1 = "getAllData" ∨ p.1 = "quickTest") ∧
    (s.cache.map Prod.fst).Nodup := by
  induction h with
  | init => exact ⟨by simp [initState], by simp [initState]⟩
  | step hs hstep ih =>
      obtain ⟨ihk, ihn⟩ := ih
      cases hstep with
      | spawn op => rw [cache_applySpawn_eq]; exact ⟨ihk, ihn⟩
      | startReq i t hget hpc => rw [cache_applyStartReq_eq]; exact ⟨ihk, ihn⟩
      | resolve rid req v hget hres hop => rw [cache_applyResolve_eq]; exact ⟨ihk, ihn⟩
      | waiterCont i t rid hget hpc hres =>
          rw [cache_applyWaiterCont_eq]; exact ⟨ihk, ihn⟩
      | tick d => rw [cache_applyTick_eq]; exact ⟨ihk, ihn⟩
      | runEntrySection i t hget hpc =>
          refine ⟨fun p hp => ihk p (cache_applyEntrySection_subset hp), ?_⟩
          rw [cache_applyEntrySection_eq hget]
          exact nodup_getCachedResponse_snd ihn
      | ownerCont i t rid hget hpc hres =>
          refine ⟨fun p hp => ?_, nodup_cache_applyOwnerCont ihn⟩
          rcases cache_applyOwnerCont hp with h' | ⟨r, hp', _⟩ | ⟨v, hp'⟩
          · exact ihk p h'
          · rw [hp']; exact Or.inl rfl
          · rw [hp']; exact Or.inr rfl
      | doCleanup =>
          exact ⟨fun p hp => ihk p (List.mem_of_mem_filter hp), nodup_keys_filter _ ihn⟩
      | doClearCache => simp [applyClearCache]
      | doClearEntry k =>
          exact ⟨fun p hp => ihk p (mem_delKey hp), nodup_keys_filter _ ihn⟩

/-- Classification of cache-entry removal: a step removes an entry only by
explicit clearing or because its (possibly caller-overridden) TTL has
expired. -/
theorem step_cache_deletion {s : MState} {ev : Event} {s' : MState} {k : String}
    {entry : CachedResponse}
    (hstep : Step s ev s') (hsome : lookupKey s.cache k = some entry)
    (hnone : lookupKey s'.cache k = none) :
    ev = Event.doClearCache ∨ ev = Event.doClearEntry k ∨
    ∃ t, (t = entry.ttl ∨ t = 10000) ∧ s.now - entry.timestamp > t := by
  cases hstep with
  | spawn op => rw [cache_applySpawn_eq, hsome] at hnone; cases hnone
  | startReq i t hget hpc => rw [cache_applyStartReq_eq, hsome] at hnone; cases hnone
  | resolve rid req v hget hres hop =>
      rw [cache_applyResolve_eq, hsome] at hnone; cases hnone
  | waiterCont i t rid hget hpc hres =>
      rw [cache_applyWaiterCont_eq, hsome] at hnone; cases hnone
  | tick d => rw [cache_applyTick_eq, hsome] at hnone; cases hnone
  | doClearCache => exact Or.inl rfl
  | doClearEntry k' =>
      by_cases hk : k = k'
      · subst hk; exact Or.inr (Or.inl rfl)
      · simp only [applyClearEntry] at hnone
        rw [lookupKey_delKey_ne _ _ _ hk, hsome] at hnone
        cases hnone
  | doCleanup =>
      simp only [applyCleanup] at hnone
      by_cases hfresh : s.now - entry.timestamp ≤ entry.ttl
      · have hkeep := lookupKey_filter_of_keep
          (fun kv => decide (s.now - kv.2.timestamp ≤ kv.2.ttl)) hsome
          (by simpa using hfresh)
        rw [hkeep] at hnone
        cases hnone
      · exact Or.inr (Or.inr ⟨entry.ttl, Or.inl rfl, by omega⟩)
  | ownerCont i t rid hget hpc hres =>
      rw [cache_applyOwnerCont_lookup_none hnone] at hsome
      cases hsome
  | runEntrySection i t hget hpc =>
      rw [cache_applyEntrySection_eq hget] at hnone
      obtain ⟨hk, hexp⟩ := getCachedResponse_snd_del hsome hnone
      refine Or.inr (Or.inr ?_)
      cases htop : t.op with
      | data =>
          rw [htop] at hexp
          exact ⟨entry.ttl, Or.inl rfl, by simpa [customFor, jsOr] using hexp⟩
      | quick =>
          rw [htop] at hexp
          exact ⟨10000, Or.inr rfl, by simpa [customFor, jsOr] using hexp⟩

/-- C4 (amended): the `ApiManager` cache is a per-endpoint TTL map with no
eviction policy beyond time expiry: every reachable state holds at most two
entries — at most one per endpoint key (`'getAllData'`, `'quickTest'`) —
and a step removes an entry only because its (possibly caller-overridden)
TTL has expired, detected on read or by the periodic cleanup, or because
`clearCache`/`clearCacheEntry` was explicitly called; there is no size- or
capacity-based eviction. -/
theorem c4_cacheShape :
    (∀ s : MState, Reach s →
       s.cache.length ≤ 2 ∧
       ∀ p ∈ s.cache, p.1 = "getAllData" ∨ p.1 = "quickTest") ∧
    (∀ (s : MState) (ev : Event) (s' : MState) (k : String) (entry : CachedResponse),
       Step s ev s' → lookupKey s.cache k = some entry →
       lookupKey s'.cache k = none →
       ev = Event.doClearCache ∨ ev = Event.doClearEntry k ∨
       ∃ t, (t = entry.ttl ∨ t = 10000) ∧ s.now - entry.timestamp > t) := by
  constructor
  · intro s hs
    obtain ⟨hk, hn⟩ := reach_cache_wf s hs
    refine ⟨?_, hk⟩
    have hlen : (s.cache.map Prod.fst).length = s.cache.length := List.length_map _ _
    have h2 := length_le_two_of_mem (l := s.cache.map Prod.fst)
      (a := "getAllData") (b := "quickTest") ?_ hn
    · omega
    · intro x hx
      obtain ⟨p, hp, rfl⟩ := List.mem_map.1 hx
      exact hk p hp
  · intro s ev s' k entry hstep hsome hnone
    exact step_cache_deletion hstep hsome hnone

/-- C4 (counterexample to the claim as stated): after one successful
`getAllData` call and one successful `quickConnectionTest` call the manager
cache holds two entries, so it is not a single-key map. -/
theorem c4_counterexample : Reach tr10 ∧ ¬ (tr10.cache.length ≤ 1) :=
  ⟨reach_tr10, by decide⟩

theorem c4_witness :
    tr5.cache.length ≤ 2 ∧
    (Event.doClearEntry "getAllData" = Event.doClearCache ∨
     Event.doClearEntry "getAllData" = Event.doClearEntry "getAllData" ∨
     ∃ t, (t = e0.ttl ∨ t = 10000) ∧ tr5.now - e0.timestamp > t) :=
  ⟨(c4_cacheShape.1 tr5 reach_tr5).1,
   c4_cacheShape.2 tr5 (Event.doClearEntry "getAllData")
     (applyClearEntry tr5 "getAllData") "getAllData" e0
     (Step.doClearEntry tr5 "getAllData") (by decide) (by decide)⟩

/-! ## Claim C3 -/

/-- C3: the pending-request check and the registration of a new request are
separated by the `await this.enforceRateLimit()` suspension, so two
`getAllData` calls arriving in the same tick both pass the check before
either registers: the machine reaches a state (`dbl6`) with two underlying
`sheetApi.getAllData` requests in flight for the key `'getAllData'`, the
second one started by a step taken while the first was still registered
pending and unresolved — contradicting the claim (and the manager's own
documentation) that a new request is never started while one is pending. -/
theorem c3_duplicateRequests :
    Reach dbl6 ∧
    Step dbl5 (Event.startReq 1) dbl6 ∧
    lookupKey dbl5.pending "getAllData" = some { reqId := 0, timestamp := 0 } ∧
    dbl5.requests.get? 0 = some { op := OpKind.data, result := none } ∧
    dbl6.requests.length = 2 ∧
    (∀ r ∈ dbl6.requests, r.op = OpKind.data ∧ r.result = none) :=
  ⟨reach_dbl6,
   Step.startReq dbl5 1 { op := OpKind.data, pc := TaskPC.rateWait }
     (by decide) (by decide),
   by decide, by decide, by decide, by decide⟩
